import Mathlib

/-!
Shallow embedding of the rustformers/llama-rs weight-loading core.

The embedding follows `llama-rs/src/loader.rs` (the legacy / GGMF
multi-part weight loader) and `crates/ggml/src/lib.rs` (container-type
detection and serialization).  Byte streams are modelled as `List Nat`
(one entry per byte, little-endian where multi-byte values occur);
machine integers are `Nat`/`Int` with explicit wrap-around where the
source performs a wrapping cast.  Fallible operations return `Except`,
with Rust's `?` operator embedded as an explicit match that propagates
the error.  Rust panics (failed `assert_eq!`, out-of-bounds indexing)
are modelled as the distinguished error `LoadErr.panicked`.
-/

namespace LlamaRs

/-- Error type of the loader.  Mirrors the variants of `LoadError` that
`loader.rs` can produce (`ReadExactFailed`, UTF-8 failure via `From`,
`UnknownTensor`, `TensorWrongSize`, `InvalidFtype`, `TryFromIntError`),
plus `panicked`, which models a Rust panic (failed `assert_eq!` or
out-of-bounds slice indexing), and `fuelExhausted`, an artifact of the
fuel-based loop model that no real execution reaches. -/
inductive LoadErr where
  | readExactFailed (bytes : Nat)
  | invalidUtf8
  | unknownTensor (tensorName : String)
  | tensorWrongSize (tensorName : String) (path : String)
  | invalidFtype (tensorName : String) (ftype : Nat) (path : String)
  | tryFromIntError
  | panicked
  | fuelExhausted
  deriving Repr, DecidableEq

/-- A byte stream: the part file's contents after the shared metadata
offset, one `Nat` per byte. -/
abbrev ByteStream := List Nat

/-- Embeds `read_exact` on a buffered reader: take exactly `n` bytes or
fail with `ReadExactFailed` carrying the requested length. -/
def readExact (n : Nat) (s : ByteStream) : Except LoadErr (List Nat × ByteStream) :=
  if n ≤ s.length then .ok (s.take n, s.drop n) else .error (.readExactFailed n)

/-- Little-endian value of a byte list (each entry reduced mod 256,
matching the `u8` type of the source bytes). -/
def leValue : List Nat → Nat
  | [] => 0
  | b :: bs => b % 256 + 256 * leValue bs

/-- Embeds `read_u32`: four little-endian bytes as a `u32`. -/
def readU32 (s : ByteStream) : Except LoadErr (Nat × ByteStream) :=
  match readExact 4 s with
  | .error e => .error e
  | .ok (bs, s') => .ok (leValue bs, s')

/-- Reinterpret a `u32` bit pattern as an `i32` (two's complement). -/
def asI32 (v : Nat) : Int :=
  if v < 2 ^ 31 then (v : Int) else (v : Int) - 2 ^ 32

/-- Embeds `read_i32`: four little-endian bytes as an `i32`. -/
def readI32 (s : ByteStream) : Except LoadErr (Int × ByteStream) :=
  match readExact 4 s with
  | .error e => .error e
  | .ok (bs, s') => .ok (asI32 (leValue bs), s')

/-- Embeds `usize::try_from` on an `i32`/`i64` value: fails exactly on
negative input (any nonnegative `i64` fits a 64-bit `usize`). -/
def usizeTryFromInt (v : Int) : Except LoadErr Nat :=
  if 0 ≤ v then .ok v.toNat else .error .tryFromIntError

/-- Embeds `i64::try_from` on a `usize` value: fails when the value does
not fit in a signed 64-bit integer. -/
def i64TryFromNat (v : Nat) : Except LoadErr Int :=
  if v < 2 ^ 63 then .ok (v : Int) else .error .tryFromIntError

/-- Embeds the wrapping cast `as usize` applied to a signed value on a
64-bit target: reduce mod `2^64` (negative values wrap high). -/
def intAsUsize (v : Int) : Nat :=
  (v % (2 ^ 64 : Int)).toNat

/-- Decodes bytes as a string.  The embedding restricts `String::from_utf8`
to its ASCII fragment: every byte below 128 is accepted and decodes to
itself; any byte 128 or above is treated as an encoding failure.  (All
tensor names in the format are ASCII; no claim depends on multi-byte
UTF-8 sequences.) -/
def bytesToAscii? (bs : List Nat) : Option String :=
  if bs.all (· < 128) then some ⟨bs.map Char.ofNat⟩ else none

/-- Embeds `read_string`: allocate a `len`-byte buffer with
`vec![0; len]` — which panics with a capacity overflow whenever `len`
exceeds `isize::MAX`, i.e. for every `len ≥ 2^63` — then read exactly
`len` bytes into it, failing with `ReadExactFailed` on a short stream
(carrying `buf.len()`, which equals `len`) or with the encoding error
on invalid bytes. -/
def readString (len : Nat) (s : ByteStream) : Except LoadErr (String × ByteStream) :=
  if 2 ^ 63 ≤ len then .error .panicked
  else
    match readExact len s with
    | .error e => .error e
    | .ok (bs, s') =>
      match bytesToAscii? bs with
      | some str => .ok (str, s')
      | none => .error .invalidUtf8

/-- Element types of the destination tensors that the loader can
encounter (`ggml::Type` restricted to the codes `ftype` can map to). -/
inductive GgmlType where
  | f32
  | f16
  | q4_0
  | q4_1
  deriving Repr, DecidableEq

/-- Modelled from the spec: `ggml::type_size` is implemented by the
external ggml C library (only its FFI declaration is in the repository).
Per the spec, ftype 0 is a 4-byte float and ftype 1 a 2-byte half-float;
the two 4-bit quantized encodings store 32 elements per block, type A in
a 20-byte block (4-byte scale + 16 bytes of nibbles) and type B in a
24-byte block (two 4-byte floats + 16 bytes of nibbles). -/
def typeSize : GgmlType → Nat
  | .f32 => 4
  | .f16 => 2
  | .q4_0 => 20
  | .q4_1 => 24

/-- Modelled from the spec: `ggml::blck_size` from the external ggml C
library — the number of elements encoded together in one storage unit
(1 for the raw float types, 32 for the 4-bit quantized types). -/
def blckSize : GgmlType → Nat
  | .f32 => 1
  | .f16 => 1
  | .q4_0 => 32
  | .q4_1 => 32

/-- Destination tensor descriptor, as the loader sees it through the
registry: the full (unsharded) extents `get_ne()[0]`, `get_ne()[1]`
(`i64` in the source) and the element type `get_type()`. -/
structure TensorDesc where
  ne0 : Int
  ne1 : Int
  ty : GgmlType
  deriving Repr, DecidableEq

/-- Modelled from the spec: the registry descriptor's total element
count (`tensor.nelements()`, a `usize` product of the extents). -/
def TensorDesc.nelements (d : TensorDesc) : Nat :=
  (d.ne0 * d.ne1).toNat

/-- Modelled from the spec: the registry descriptor's row stride
`get_nb()[1]` for a contiguous rank-2 tensor —
`(ne[0] / block_size) * element_size` bytes per row. -/
def TensorDesc.nb1 (d : TensorDesc) : Nat :=
  d.ne0.toNat / blckSize d.ty * typeSize d.ty

/-- Modelled from the spec: the registry descriptor's total byte size
`tensor.nbytes()` for a contiguous rank ≤ 2 tensor: row stride times
number of rows. -/
def TensorDesc.nbytes (d : TensorDesc) : Nat :=
  d.nb1 * d.ne1.toNat

/-- The tensor registry: name to destination descriptor, as an
association list (`model.tensors` in the source). -/
structure Model where
  tensors : List (String × TensorDesc)
  deriving Repr

/-- Embeds `model.tensors.get(&tensor_name)`. -/
def Model.lookup (m : Model) (name : String) : Option TensorDesc :=
  m.tensors.lookup name

/-- Tests whether `p` occurs at the head of `l`. -/
def leadsWith : List Char → List Char → Bool
  | [], _ => true
  | _ :: _, [] => false
  | p :: ps, h :: hs => p = h && leadsWith ps hs

/-- Tests whether `pat` occurs as a contiguous sublist of the second
argument, at any position. -/
def hasSub (pat : List Char) : List Char → Bool
  | [] => pat.isEmpty
  | h :: t => leadsWith pat (h :: t) || hasSub pat t

/-- Embeds `str::contains` (substring containment) on ASCII strings. -/
def strContains (hay pat : String) : Bool :=
  hasSub pat.data hay.data

/-- Embeds the split-type decision tree of `loader.rs` (lines 124-138):
0 means split by columns, 1 means split by rows. -/
def splitType (name : String) : Nat :=
  if strContains name "tok_embeddings" then 0
  else if strContains name "layers" then
    if strContains name "attention.wo.weight" then 0
    else if strContains name "feed_forward.w2.weight" then 0
    else 1
  else if strContains name "output" then 1
  else 0

/-- The split-axis policy as the spec describes it: an ordered list of
(pattern set, axis) rules.  A rule matches when every listed substring
occurs in the name; rules are evaluated first-match-wins, and a name
matching no rule splits by columns (axis 0). -/
def splitRules : List (List String × Nat) :=
  [(["tok_embeddings"], 0),
   (["layers", "attention.wo.weight"], 0),
   (["layers", "feed_forward.w2.weight"], 0),
   (["layers"], 1),
   (["output"], 1)]

/-- First-match-wins evaluation of `splitRules`, per the spec's
data-driven reformulation of the split-axis policy. -/
def splitTypeSpec (name : String) : Nat :=
  match splitRules.find? (fun rule => rule.1.all (fun pat => strContains name pat)) with
  | some rule => rule.2
  | none => 0

/-- One byte-copy performed by the loader: `data` written into the
destination tensor `tensorName`'s byte view starting at byte `offset`. -/
structure TensorWrite where
  tensorName : String
  offset : Nat
  data : List Nat
  deriving Repr, DecidableEq

/-- Modelled from the spec: the progress events of `LoadProgress` (its
declaration lives outside the provided sources).  `partLoading` carries
the part path, part index and total part count; `partTensorLoaded` the
part path, the 1-based per-part tensor index and the registry's total
tensor count; `partLoaded` the part path, the part's accumulated byte
size and its tensor count. -/
inductive LoadProgress where
  | partLoading (file : String) (currentPart : Nat) (totalParts : Nat)
  | partTensorLoaded (file : String) (currentTensor : Nat) (tensorCount : Nat)
  | partLoaded (file : String) (byteSize : Nat) (tensorCount : Nat)
  deriving Repr, DecidableEq

/-- One tensor record's header fields as read from a part stream:
`n_dims`, the raw `length` field (kept as the `i32` the source reads),
`ftype`, the declared extents (with `ne[1]` defaulting to 1 when only
one dimension is read), the accumulated `nelements`, and the decoded
tensor name. -/
structure TensorRecord where
  nDims : Nat
  lengthField : Int
  ftype : Nat
  ne0 : Int
  ne1 : Int
  nelements : Nat
  name : String
  deriving Repr, DecidableEq

/-- Embeds the extent-reading loop (`for i in 0..n_dims`): `ne` starts
as `[1, 1]` and `nelements` as 1; each read extent passes through
`usize::try_from` and multiplies into `nelements`.  Reading a third
extent would index out of bounds of the two-element `ne` array and
panic. -/
def readDims : Nat → ByteStream → Except LoadErr (Int × Int × Nat × ByteStream)
  | 0, s => .ok (1, 1, 1, s)
  | 1, s =>
    match readI32 s with
    | .error e => .error e
    | .ok (v0, s) =>
      match usizeTryFromInt v0 with
      | .error e => .error e
      | .ok n0 => .ok (v0, 1, 1 * n0, s)
  | 2, s =>
    match readI32 s with
    | .error e => .error e
    | .ok (v0, s) =>
      match usizeTryFromInt v0 with
      | .error e => .error e
      | .ok n0 =>
        match readI32 s with
        | .error e => .error e
        | .ok (v1, s) =>
          match usizeTryFromInt v1 with
          | .error e => .error e
          | .ok n1 => .ok (v0, v1, 1 * n0 * n1, s)
  | _ + 3, _ => .error .panicked

/-- Embeds the header-reading prefix of one loop iteration of
`load_weights_ggmf_or_unversioned` (lines 86-99): read `n_dims` (via
`usize::try_from`), the raw `length`, `ftype`, the extents, and then
the name as a string of `length as usize` bytes (a wrapping cast, not a
checked conversion). -/
def parseRecordHeader (s : ByteStream) : Except LoadErr (TensorRecord × ByteStream) :=
  match readI32 s with
  | .error e => .error e
  | .ok (nDimsI, s) =>
    match usizeTryFromInt nDimsI with
    | .error e => .error e
    | .ok nDims =>
      match readI32 s with
      | .error e => .error e
      | .ok (length, s) =>
        match readU32 s with
        | .error e => .error e
        | .ok (ftype, s) =>
          match readDims nDims s with
          | .error e => .error e
          | .ok (ne0, ne1, nelements, s) =>
            match readString (intAsUsize length) s with
            | .error e => .error e
            | .ok (name, s) =>
              .ok ({ nDims := nDims, lengthField := length, ftype := ftype,
                     ne0 := ne0, ne1 := ne1, nelements := nelements,
                     name := name }, s)

/-- Embeds the `bpe` match on `ftype` (lines 179-197): codes 0-3 map to
the on-disk element sizes of F32, F16, Q4_0 and Q4_1; the quantized
codes assert that the declared `ne[0]` is divisible by 64 (a failed
assertion is a panic); any other code is the fatal `InvalidFtype`
carrying the tensor name, the code, and the part path. -/
def bpeResult (tensorName path : String) (ftype : Nat) (ne0 : Int) : Except LoadErr Nat :=
  match ftype with
  | 0 => .ok (typeSize .f32)
  | 1 => .ok (typeSize .f16)
  | 2 => if ne0 % 64 = 0 then .ok (typeSize .q4_0) else .error .panicked
  | 3 => if ne0 % 64 = 0 then .ok (typeSize .q4_1) else .error .panicked
  | _ => .error (.invalidFtype tensorName ftype path)

/-- Embeds the element-count validation (lines 140-152): rank-1 records
must declare exactly the destination's element count; all other records
must declare the destination's count divided by the part count. -/
def checkNelements (tensor : TensorDesc) (r : TensorRecord) (nParts : Nat)
    (path : String) : Except LoadErr Unit :=
  if r.nDims = 1 then
    if tensor.nelements ≠ r.nelements then .error (.tensorWrongSize r.name path)
    else .ok ()
  else
    if tensor.nelements / nParts ≠ r.nelements then .error (.tensorWrongSize r.name path)
    else .ok ()

/-- Embeds the extent validation (lines 154-177): rank-1 records are
compared against both destination extents unchanged; other records have
the split axis's destination extent divided by the part count (obtained
through `i64::try_from`) before comparison. -/
def checkExtents (tensor : TensorDesc) (r : TensorRecord) (nParts st : Nat)
    (path : String) : Except LoadErr Unit :=
  if r.nDims = 1 then
    if tensor.ne0 ≠ r.ne0 ∨ tensor.ne1 ≠ r.ne1 then .error (.tensorWrongSize r.name path)
    else .ok ()
  else if st = 0 then
    match i64TryFromNat nParts with
    | .error e => .error e
    | .ok npI =>
      if Int.tdiv tensor.ne0 npI ≠ r.ne0 ∨ tensor.ne1 ≠ r.ne1 then
        .error (.tensorWrongSize r.name path)
      else .ok ()
  else
    match i64TryFromNat nParts with
    | .error e => .error e
    | .ok npI =>
      if tensor.ne0 ≠ r.ne0 ∨ Int.tdiv tensor.ne1 npI ≠ r.ne1 then
        .error (.tensorWrongSize r.name path)
      else .ok ()

/-- Embeds one sharded copy loop (`for i1 in 0..ne[1]`): at row index
`i`, read `sliceLen` bytes from the part stream and write them at
destination offset `offsetOf i`; recurse for the remaining `count`
rows. -/
def copyRows (name : String) (sliceLen : Nat) (offsetOf : Nat → Nat) :
    Nat → Nat → ByteStream → Except LoadErr (ByteStream × List TensorWrite)
  | 0, _, s => .ok (s, [])
  | n + 1, i, s =>
    match readExact sliceLen s with
    | .error e => .error e
    | .ok (bytes, s') =>
      match copyRows name sliceLen offsetOf n (i + 1) s' with
      | .error e => .error e
      | .ok (s'', ws) => .ok (s'', ⟨name, offsetOf i, bytes⟩ :: ws)

/-- Embeds the byte-size validation and copy phase (lines 199-268).
Unsharded case (rank-1 record or a single part): validate the full byte
size, then part 0 reads the tensor's whole byte range into destination
offset 0 while every other part seeks forward past `tensor.nbytes()`
bytes; either way `total_size` grows by the full `tensor.nbytes()`.
Sharded case: validate the per-part byte size, then copy row slices at
the offsets dictated by the split type; `total_size` grows by
`tensor.nbytes() / n_parts`. -/
def copyPhase (tensor : TensorDesc) (r : TensorRecord) (partId nParts : Nat)
    (path : String) (bpe st : Nat) (s : ByteStream) :
    Except LoadErr (ByteStream × List TensorWrite × Nat) :=
  if r.nDims = 1 ∨ nParts = 1 then
    if r.nelements * bpe / blckSize tensor.ty ≠ tensor.nbytes then
      .error (.tensorWrongSize r.name path)
    else if partId = 0 then
      match readExact tensor.nbytes s with
      | .error e => .error e
      | .ok (bytes, s') => .ok (s', [⟨r.name, 0, bytes⟩], tensor.nbytes)
    else
      .ok (s.drop tensor.nbytes, [], tensor.nbytes)
  else
    if r.nelements * bpe / blckSize tensor.ty ≠ tensor.nbytes / nParts then
      .error (.tensorWrongSize r.name path)
    else
      match usizeTryFromInt tensor.ne0 with
      | .error e => .error e
      | .ok base =>
        let rowSize := base / blckSize tensor.ty * typeSize tensor.ty
        if st = 0 then
          if rowSize ≠ tensor.nb1 then .error .panicked
          else
            match copyRows r.name (rowSize / nParts)
                (fun i => i * rowSize +
                  partId * intAsUsize r.ne0 / blckSize tensor.ty * typeSize tensor.ty)
                r.ne1.toNat 0 s with
            | .error e => .error e
            | .ok (s', ws) => .ok (s', ws, tensor.nbytes / nParts)
        else
          match copyRows r.name rowSize
              (fun i => (i + partId * intAsUsize r.ne1) * rowSize)
              r.ne1.toNat 0 s with
          | .error e => .error e
          | .ok (s', ws) => .ok (s', ws, tensor.nbytes / nParts)

/-- Embeds the per-record validation and copy phase of
`load_weights_ggmf_or_unversioned` (lines 101-268), from the registry
lookup through the byte copies: returns the remaining stream, the list
of byte-copies performed into destination tensors, and the amount added
to the part's `total_size` accumulator. -/
def processRecord (m : Model) (partId nParts : Nat) (path : String)
    (r : TensorRecord) (s : ByteStream) :
    Except LoadErr (ByteStream × List TensorWrite × Nat) :=
  match m.lookup r.name with
  | none => .error (.unknownTensor r.name)
  | some tensor =>
    let st := splitType r.name
    match checkNelements tensor r nParts path with
    | .error e => .error e
    | .ok _ =>
      match checkExtents tensor r nParts st path with
      | .error e => .error e
      | .ok _ =>
        match bpeResult r.name path r.ftype r.ne0 with
        | .error e => .error e
        | .ok bpe => copyPhase tensor r partId nParts path bpe st s

/-- Holds when destination byte `b` of a tensor lies inside one of the
byte-copies `ws`. -/
def covers (ws : List TensorWrite) (b : Nat) : Prop :=
  ∃ w ∈ ws, w.offset ≤ b ∧ b < w.offset + w.data.length

/-- The byte-copies performed by a record-processing result: none when
the record was rejected. -/
def writesOf (res : Except LoadErr (ByteStream × List TensorWrite × Nat)) :
    List TensorWrite :=
  match res with
  | .ok (_, ws, _) => ws
  | .error _ => []

/-- Embeds the per-part record loop (`loop { ... }`, lines 78-276):
while the stream is nonempty, parse and process one record, emitting a
`partTensorLoaded` event after each; on end-of-stream emit `partLoaded`
with the accumulated `total_size` and tensor count.  The `fuel`
parameter bounds the recursion; every successful iteration consumes at
least the 12 header bytes, so `fuel = s.length + 1` can never run out
on a real execution. -/
def loadPartLoop (m : Model) (partId nParts : Nat) (path : String) :
    Nat → ByteStream → Nat → Nat →
    Except LoadErr (List TensorWrite × List LoadProgress × Nat × Nat)
  | fuel, s, totalSize, nTensors =>
    if s.isEmpty then
      .ok ([], [.partLoaded path totalSize nTensors], totalSize, nTensors)
    else
      match fuel with
      | 0 => .error .fuelExhausted
      | fuel + 1 =>
        match parseRecordHeader s with
        | .error e => .error e
        | .ok (r, s') =>
          match processRecord m partId nParts path r s' with
          | .error e => .error e
          | .ok (s'', ws, sz) =>
            match loadPartLoop m partId nParts path fuel s'' (totalSize + sz)
                (nTensors + 1) with
            | .error e => .error e
            | .ok (wsRest, evs, tot, nt) =>
              .ok (ws ++ wsRest,
                   .partTensorLoaded path (nTensors + 1) m.tensors.length :: evs,
                   tot, nt)

/-- Embeds the processing of one part by
`load_weights_ggmf_or_unversioned`: emit `partLoading` (carrying the
part path, the part index and the total part count), then run the
record loop from the part's data with `total_size` and `n_tensors` at
zero.  Returns the byte-copies performed, the emitted event sequence,
the final `total_size`, and the part's tensor count. -/
def loadPart (m : Model) (partId nParts : Nat) (path : String) (s : ByteStream) :
    Except LoadErr (List TensorWrite × List LoadProgress × Nat × Nat) :=
  match loadPartLoop m partId nParts path (s.length + 1) s 0 0 with
  | .error e => .error e
  | .ok (ws, evs, tot, nt) => .ok (ws, .partLoading path partId nParts :: evs, tot, nt)

end LlamaRs

namespace Ggml

/-- Magic constant for unversioned ggml files (`FILE_MAGIC_GGML`). -/
def FILE_MAGIC_GGML : Nat := 0x67676d6c

/-- Magic constant for versioned ggmf files (`FILE_MAGIC_GGMF`). -/
def FILE_MAGIC_GGMF : Nat := 0x67676d66

/-- Magic constant for versioned ggjt files (`FILE_MAGIC_GGJT`). -/
def FILE_MAGIC_GGJT : Nat := 0x67676a74

/-- Magic constant for ggla (LoRA adapter) files (`FILE_MAGIC_GGLA`). -/
def FILE_MAGIC_GGLA : Nat := 0x67676C61

/-- The container-format variants of `ggml::ContainerType`. -/
inductive ContainerType where
  | ggml
  | ggmf (version : Nat)
  | ggjt (version : Nat)
  | ggla (version : Nat)
  deriving Repr, DecidableEq

/-- Errors of container-type detection: an unrecognized magic number
(carrying the raw value), or a short read. -/
inductive FormatError where
  | invalidMagic (magic : Nat)
  | shortRead
  deriving Repr, DecidableEq

/-- Modelled from the spec: `ggml::util::write_u32` (the `util` module
is not part of the provided sources) — serialize a `u32` as four
little-endian bytes. -/
def writeU32 (v : Nat) : List Nat :=
  [v % 256, v / 256 % 256, v / 256 ^ 2 % 256, v / 256 ^ 3 % 256]

/-- Modelled from the spec: `ggml::util::read_u32` — read four
little-endian bytes as a `u32`, failing on a short stream. -/
def readU32 (s : List Nat) : Except FormatError (Nat × List Nat) :=
  match s with
  | b0 :: b1 :: b2 :: b3 :: rest => .ok (LlamaRs.leValue [b0, b1, b2, b3], rest)
  | _ => .error .shortRead

/-- Embeds `ContainerType::write`: emit the magic, then the version for
the versioned variants. -/
def ContainerType.write : ContainerType → List Nat
  | .ggml => writeU32 FILE_MAGIC_GGML
  | .ggmf v => writeU32 FILE_MAGIC_GGMF ++ writeU32 v
  | .ggjt v => writeU32 FILE_MAGIC_GGJT ++ writeU32 v
  | .ggla v => writeU32 FILE_MAGIC_GGLA ++ writeU32 v

/-- Embeds `ContainerType::read`: read the magic, dispatch on the four
known constants (reading one more `u32` as the version for the
versioned variants), and reject unknown magic values with
`InvalidMagic` carrying the raw value. -/
def ContainerType.read (s : List Nat) : Except FormatError (ContainerType × List Nat) :=
  match readU32 s with
  | .error e => .error e
  | .ok (magic, s) =>
    if magic = FILE_MAGIC_GGML then .ok (.ggml, s)
    else if magic = FILE_MAGIC_GGMF then
      match readU32 s with
      | .error e => .error e
      | .ok (version, s) => .ok (.ggmf version, s)
    else if magic = FILE_MAGIC_GGJT then
      match readU32 s with
      | .error e => .error e
      | .ok (version, s) => .ok (.ggjt version, s)
    else if magic = FILE_MAGIC_GGLA then
      match readU32 s with
      | .error e => .error e
      | .ok (version, s) => .ok (.ggla version, s)
    else .error (.invalidMagic magic)

/-- A container value is well-formed when its version field fits a
`u32` (the field's type in the source). -/
def ContainerType.wf : ContainerType → Prop
  | .ggml => True
  | .ggmf v => v < 2 ^ 32
  | .ggjt v => v < 2 ^ 32
  | .ggla v => v < 2 ^ 32

end Ggml

/-- Decidable equality for `Except` results, used to evaluate the
embedding at concrete inputs. -/
instance {e a : Type} [DecidableEq e] [DecidableEq a] : DecidableEq (Except e a) :=
  fun x y =>
    match x, y with
    | .ok u, .ok v =>
      match decEq u v with
      | isTrue h => isTrue (by rw [h])
      | isFalse h => isFalse (fun hc => h (Except.ok.inj hc))
    | .error u, .error v =>
      match decEq u v with
      | isTrue h => isTrue (by rw [h])
      | isFalse h => isFalse (fun hc => h (Except.error.inj hc))
    | .ok _, .error _ => isFalse (fun hc => Except.noConfusion hc)
    | .error _, .ok _ => isFalse (fun hc => Except.noConfusion hc)

section Helpers

theorem readExact_append (n : Nat) (b s : LlamaRs.ByteStream) (h : b.length = n) :
    LlamaRs.readExact n (b ++ s) = .ok (b, s) := by
  subst h
  simp [LlamaRs.readExact, List.take_left, List.drop_left]

end Helpers

/-- C6: for every tensor name, the row/column split decision of the
loader is a pure, total function of the name text alone, and it agrees
with the first-match-wins evaluation of the ordered substring-rule list
(`tok_embeddings` to columns; `layers` with `attention.wo.weight` or
`feed_forward.w2.weight` to columns; other `layers` names to rows;
`output` to rows; every other name to columns). -/
theorem splitType_eq_splitTypeSpec (name : String) :
    LlamaRs.splitType name = LlamaRs.splitTypeSpec name := by
  unfold LlamaRs.splitType LlamaRs.splitTypeSpec LlamaRs.splitRules
  cases h1 : LlamaRs.strContains name "tok_embeddings" <;>
    cases h2 : LlamaRs.strContains name "layers" <;>
      cases h3 : LlamaRs.strContains name "attention.wo.weight" <;>
        cases h4 : LlamaRs.strContains name "feed_forward.w2.weight" <;>
          cases h5 : LlamaRs.strContains name "output" <;>
            simp [List.find?, h1, h2, h3, h4, h5]

theorem leValue_writeU32 (v : Nat) :
    LlamaRs.leValue (Ggml.writeU32 v) = v % 2 ^ 32 := by
  norm_num [Ggml.writeU32, LlamaRs.leValue]
  omega

theorem ggml_readU32_writeU32 (v : Nat) (r : List Nat) :
    Ggml.readU32 (Ggml.writeU32 v ++ r) = .ok (v % 2 ^ 32, r) := by
  have h := leValue_writeU32 v
  simp [Ggml.writeU32] at h
  simp [Ggml.writeU32, Ggml.readU32, h]

theorem ggml_readU32_writeU32_nil (v : Nat) :
    Ggml.readU32 (Ggml.writeU32 v) = .ok (v % 2 ^ 32, []) := by
  have h := ggml_readU32_writeU32 v []
  rwa [List.append_nil] at h

/-- C7: for each of the four container variants and every version
number that fits a `u32`, writing the container type with
`ContainerType.write` and reading the produced bytes back with
`ContainerType.read` returns the original value (and consumes the whole
output). -/
theorem containerType_write_read_roundtrip (t : Ggml.ContainerType) (h : t.wf) :
    Ggml.ContainerType.read t.write = .ok (t, []) := by
  cases t with
  | ggml =>
    rfl
  | ggmf v =>
    have h' : v < 2 ^ 32 := h
    rw [Ggml.ContainerType.write, Ggml.ContainerType.read, ggml_readU32_writeU32]
    norm_num [Ggml.FILE_MAGIC_GGML, Ggml.FILE_MAGIC_GGMF, Ggml.FILE_MAGIC_GGJT,
      Ggml.FILE_MAGIC_GGLA, ggml_readU32_writeU32_nil, Nat.mod_eq_of_lt h']
    norm_num at h'
    exact h'
  | ggjt v =>
    have h' : v < 2 ^ 32 := h
    rw [Ggml.ContainerType.write, Ggml.ContainerType.read, ggml_readU32_writeU32]
    norm_num [Ggml.FILE_MAGIC_GGML, Ggml.FILE_MAGIC_GGMF, Ggml.FILE_MAGIC_GGJT,
      Ggml.FILE_MAGIC_GGLA, ggml_readU32_writeU32_nil, Nat.mod_eq_of_lt h']
    norm_num at h'
    exact h'
  | ggla v =>
    have h' : v < 2 ^ 32 := h
    rw [Ggml.ContainerType.write, Ggml.ContainerType.read, ggml_readU32_writeU32]
    norm_num [Ggml.FILE_MAGIC_GGML, Ggml.FILE_MAGIC_GGMF, Ggml.FILE_MAGIC_GGJT,
      Ggml.FILE_MAGIC_GGLA, ggml_readU32_writeU32_nil, Nat.mod_eq_of_lt h']
    norm_num at h'
    exact h'

/-- C7 witness: the round-trip theorem applied at the concrete
container value `Ggjt 3`. -/
theorem containerType_write_read_roundtrip_witness :
    (Ggml.ContainerType.ggjt 3).wf ∧
      Ggml.ContainerType.read (Ggml.ContainerType.ggjt 3).write =
        .ok (.ggjt 3, []) :=
  ⟨by norm_num [Ggml.ContainerType.wf],
   containerType_write_read_roundtrip (.ggjt 3) (by norm_num [Ggml.ContainerType.wf])⟩

theorem copyRows_eq (name : String) (sliceLen : Nat) (offsetOf : Nat → Nat) :
    ∀ (n i : Nat) (s : LlamaRs.ByteStream), n * sliceLen ≤ s.length →
      LlamaRs.copyRows name sliceLen offsetOf n i s =
        .ok (s.drop (n * sliceLen),
          (List.range n).map fun k =>
            ⟨name, offsetOf (i + k), (s.drop (k * sliceLen)).take sliceLen⟩) := by
  intro n
  induction n with
  | zero =>
    intro i s h
    simp [LlamaRs.copyRows]
  | succ n ih =>
    intro i s h
    have heq : (n + 1) * sliceLen = n * sliceLen + sliceLen := by ring
    rw [heq] at h
    have hs : sliceLen ≤ s.length := by omega
    have hre : LlamaRs.readExact sliceLen s = .ok (s.take sliceLen, s.drop sliceLen) := by
      rw [LlamaRs.readExact, if_pos hs]
    have hlen : n * sliceLen ≤ (s.drop sliceLen).length := by
      rw [List.length_drop]
      omega
    simp only [LlamaRs.copyRows, hre, ih (i + 1) _ hlen]
    rw [List.range_succ_eq_map]
    simp only [List.map_cons, List.map_map, List.drop_drop,
      List.drop_zero, Nat.zero_mul, Nat.add_zero]
    have hdrop : List.drop (sliceLen + n * sliceLen) s = List.drop ((n + 1) * sliceLen) s := by
      congr 1
      ring
    rw [hdrop]
    simp only [Except.ok.injEq, Prod.mk.injEq, List.cons.injEq, true_and]
    apply List.map_congr_left
    intro k _
    simp only [Function.comp_apply, Nat.succ_eq_add_one]
    have h1 : i + 1 + k = i + (k + 1) := by omega
    have h2 : sliceLen + k * sliceLen = (k + 1) * sliceLen := by ring
    rw [h1, h2]

theorem checkNelements_ok (tensor : LlamaRs.TensorDesc) (r : LlamaRs.TensorRecord)
    (nParts : Nat) (path : String)
    (h1 : r.nDims = 1 → tensor.nelements = r.nelements)
    (h2 : r.nDims ≠ 1 → tensor.nelements / nParts = r.nelements) :
    LlamaRs.checkNelements tensor r nParts path = .ok () := by
  unfold LlamaRs.checkNelements
  by_cases hd : r.nDims = 1
  · simp [hd, h1 hd]
  · simp [hd, h2 hd]

theorem checkNelements_err_rank1 (tensor : LlamaRs.TensorDesc) (r : LlamaRs.TensorRecord)
    (nParts : Nat) (path : String)
    (hd : r.nDims = 1) (hne : tensor.nelements ≠ r.nelements) :
    LlamaRs.checkNelements tensor r nParts path = .error (.tensorWrongSize r.name path) := by
  unfold LlamaRs.checkNelements
  simp [hd, hne]

theorem checkNelements_err_rank2 (tensor : LlamaRs.TensorDesc) (r : LlamaRs.TensorRecord)
    (nParts : Nat) (path : String)
    (hd : r.nDims ≠ 1) (hne : tensor.nelements / nParts ≠ r.nelements) :
    LlamaRs.checkNelements tensor r nParts path = .error (.tensorWrongSize r.name path) := by
  unfold LlamaRs.checkNelements
  simp [hd, hne]

theorem checkExtents_ok (tensor : LlamaRs.TensorDesc) (r : LlamaRs.TensorRecord)
    (nParts st : Nat) (path : String)
    (hp : nParts < 2 ^ 63)
    (h1 : r.nDims = 1 → tensor.ne0 = r.ne0 ∧ tensor.ne1 = r.ne1)
    (h2 : r.nDims ≠ 1 → st = 0 →
      Int.tdiv tensor.ne0 (nParts : Int) = r.ne0 ∧ tensor.ne1 = r.ne1)
    (h3 : r.nDims ≠ 1 → st ≠ 0 →
      tensor.ne0 = r.ne0 ∧ Int.tdiv tensor.ne1 (nParts : Int) = r.ne1) :
    LlamaRs.checkExtents tensor r nParts st path = .ok () := by
  unfold LlamaRs.checkExtents
  norm_num at hp
  by_cases hd : r.nDims = 1
  · simp [hd, (h1 hd).1, (h1 hd).2]
  · by_cases hst : st = 0
    · simp [hd, hst, LlamaRs.i64TryFromNat, hp, (h2 hd hst).1, (h2 hd hst).2]
    · simp [hd, hst, LlamaRs.i64TryFromNat, hp, (h3 hd hst).1, (h3 hd hst).2]

theorem checkExtents_err_rank1 (tensor : LlamaRs.TensorDesc) (r : LlamaRs.TensorRecord)
    (nParts st : Nat) (path : String)
    (hd : r.nDims = 1) (hne : tensor.ne0 ≠ r.ne0 ∨ tensor.ne1 ≠ r.ne1) :
    LlamaRs.checkExtents tensor r nParts st path = .error (.tensorWrongSize r.name path) := by
  unfold LlamaRs.checkExtents
  rcases hne with hne | hne <;> simp [hd, hne]

theorem processRecord_stage_err (m : LlamaRs.Model) (partId nParts : Nat)
    (path : String) (r : LlamaRs.TensorRecord) (s : LlamaRs.ByteStream)
    (tensor : LlamaRs.TensorDesc) (e : LlamaRs.LoadErr)
    (hlook : m.lookup r.name = some tensor) :
    (LlamaRs.checkNelements tensor r nParts path = .error e →
      LlamaRs.processRecord m partId nParts path r s = .error e)
    ∧ (LlamaRs.checkNelements tensor r nParts path = .ok () →
       LlamaRs.checkExtents tensor r nParts (LlamaRs.splitType r.name) path = .error e →
      LlamaRs.processRecord m partId nParts path r s = .error e)
    ∧ (LlamaRs.checkNelements tensor r nParts path = .ok () →
       LlamaRs.checkExtents tensor r nParts (LlamaRs.splitType r.name) path = .ok () →
       LlamaRs.bpeResult r.name path r.ftype r.ne0 = .error e →
      LlamaRs.processRecord m partId nParts path r s = .error e) := by
  refine ⟨fun h1 => ?_, fun h1 h2 => ?_, fun h1 h2 h3 => ?_⟩ <;>
    simp only [LlamaRs.processRecord, hlook] <;>
      simp [*]

theorem processRecord_copyPhase (m : LlamaRs.Model) (partId nParts : Nat)
    (path : String) (r : LlamaRs.TensorRecord) (s : LlamaRs.ByteStream)
    (tensor : LlamaRs.TensorDesc) (bpe : Nat)
    (hlook : m.lookup r.name = some tensor)
    (h1 : LlamaRs.checkNelements tensor r nParts path = .ok ())
    (h2 : LlamaRs.checkExtents tensor r nParts (LlamaRs.splitType r.name) path = .ok ())
    (h3 : LlamaRs.bpeResult r.name path r.ftype r.ne0 = .ok bpe) :
    LlamaRs.processRecord m partId nParts path r s =
      LlamaRs.copyPhase tensor r partId nParts path bpe (LlamaRs.splitType r.name) s := by
  simp only [LlamaRs.processRecord, hlook, h1, h2, h3]

theorem copyPhase_unsharded_copy (tensor : LlamaRs.TensorDesc) (r : LlamaRs.TensorRecord)
    (nParts : Nat) (path : String) (bpe st : Nat) (s : LlamaRs.ByteStream)
    (hcase : r.nDims = 1 ∨ nParts = 1)
    (hsize : r.nelements * bpe / LlamaRs.blckSize tensor.ty = tensor.nbytes)
    (hlen : tensor.nbytes ≤ s.length) :
    LlamaRs.copyPhase tensor r 0 nParts path bpe st s =
      .ok (s.drop tensor.nbytes, [⟨r.name, 0, s.take tensor.nbytes⟩], tensor.nbytes) := by
  unfold LlamaRs.copyPhase
  rw [if_pos hcase, if_neg (by simp [hsize]), if_pos rfl, LlamaRs.readExact, if_pos hlen]

theorem copyPhase_unsharded_seek (tensor : LlamaRs.TensorDesc) (r : LlamaRs.TensorRecord)
    (partId nParts : Nat) (path : String) (bpe st : Nat) (s : LlamaRs.ByteStream)
    (hcase : r.nDims = 1 ∨ nParts = 1)
    (hsize : r.nelements * bpe / LlamaRs.blckSize tensor.ty = tensor.nbytes)
    (hpid : partId ≠ 0) :
    LlamaRs.copyPhase tensor r partId nParts path bpe st s =
      .ok (s.drop tensor.nbytes, [], tensor.nbytes) := by
  unfold LlamaRs.copyPhase
  rw [if_pos hcase, if_neg (by simp [hsize]), if_neg hpid]

/-- C3: for every record that is rank-1 or loaded with a single part,
once the element-count, extent and byte-size validations pass, only the
part with index 0 copies bytes — reading the tensor's full
`tensor.nbytes()` byte range into the destination's byte view at offset
0 — while every part with a nonzero index seeks forward past exactly
`tensor.nbytes()` bytes without performing any write; and with a part
count of 1 the only possible part index is 0, so the single part always
copies. -/
theorem unsharded_only_part0_copies (m : LlamaRs.Model) (partId nParts : Nat)
    (path : String) (r : LlamaRs.TensorRecord) (s : LlamaRs.ByteStream)
    (tensor : LlamaRs.TensorDesc) (bpe : Nat)
    (hlook : m.lookup r.name = some tensor)
    (hcase : r.nDims = 1 ∨ nParts = 1)
    (hn : LlamaRs.checkNelements tensor r nParts path = .ok ())
    (hx : LlamaRs.checkExtents tensor r nParts (LlamaRs.splitType r.name) path = .ok ())
    (hb : LlamaRs.bpeResult r.name path r.ftype r.ne0 = .ok bpe)
    (hsize : r.nelements * bpe / LlamaRs.blckSize tensor.ty = tensor.nbytes)
    (hlen : partId = 0 ∨ nParts = 1 → tensor.nbytes ≤ s.length) :
    (partId = 0 →
      LlamaRs.processRecord m partId nParts path r s =
        .ok (s.drop tensor.nbytes, [⟨r.name, 0, s.take tensor.nbytes⟩], tensor.nbytes))
    ∧ (partId ≠ 0 →
      LlamaRs.processRecord m partId nParts path r s =
        .ok (s.drop tensor.nbytes, [], tensor.nbytes))
    ∧ (∀ pid, nParts = 1 → pid < nParts → pid = 0 ∧
      LlamaRs.processRecord m pid nParts path r s =
        .ok (s.drop tensor.nbytes, [⟨r.name, 0, s.take tensor.nbytes⟩], tensor.nbytes)) := by
  refine ⟨fun hp0 => ?_, fun hpn => ?_, fun pid h1 hlt => ?_⟩
  · subst hp0
    rw [processRecord_copyPhase m 0 nParts path r s tensor bpe hlook hn hx hb]
    exact copyPhase_unsharded_copy tensor r nParts path bpe _ s hcase hsize
      (hlen (Or.inl rfl))
  · rw [processRecord_copyPhase m partId nParts path r s tensor bpe hlook hn hx hb]
    exact copyPhase_unsharded_seek tensor r partId nParts path bpe _ s hcase hsize hpn
  · have hpid : pid = 0 := by omega
    subst hpid
    refine ⟨rfl, ?_⟩
    rw [processRecord_copyPhase m 0 nParts path r s tensor bpe hlook hn hx hb]
    exact copyPhase_unsharded_copy tensor r nParts path bpe _ s hcase hsize
      (hlen (Or.inr h1))

/-- C3 witness: a concrete single-part, rank-1 record for which part 0
copies the full 16-byte range at offset 0. -/
theorem unsharded_only_part0_copies_witness :
    LlamaRs.processRecord ⟨[("norm.weight", ⟨4, 1, .f32⟩)]⟩ 0 1 "part0"
        { nDims := 1, lengthField := 11, ftype := 0, ne0 := 4, ne1 := 1,
          nelements := 4, name := "norm.weight" } (List.replicate 20 5) =
      .ok ((List.replicate 20 5).drop 16,
        [⟨"norm.weight", 0, (List.replicate 20 5).take 16⟩], 16) :=
  (unsharded_only_part0_copies ⟨[("norm.weight", ⟨4, 1, .f32⟩)]⟩ 0 1 "part0"
    { nDims := 1, lengthField := 11, ftype := 0, ne0 := 4, ne1 := 1,
      nelements := 4, name := "norm.weight" } (List.replicate 20 5)
    ⟨4, 1, .f32⟩ 4 rfl (Or.inl rfl) rfl rfl rfl (by decide)
    (fun _ => by decide)).1 rfl

/-- C4: `ftype` codes map to on-disk element sizes exactly as 0 to the
4-byte F32 size, 1 to the 2-byte F16 size, 2 to the Q4_0 block size and
3 to the Q4_1 block size; the quantized codes require the declared
`ne[0]` to be divisible by 64 (a violation is the modelled
`assert_eq!` panic); any other code fails with `InvalidFtype` carrying
the code, and — since the `ftype` match precedes the byte-size check —
a record with such a code is rejected with `InvalidFtype` for every
stream and destination descriptor, before any byte-size computation is
attempted. -/
theorem ftype_mapping (n p : String) (e : Int) :
    LlamaRs.bpeResult n p 0 e = .ok (LlamaRs.typeSize .f32)
    ∧ LlamaRs.typeSize .f32 = 4
    ∧ LlamaRs.bpeResult n p 1 e = .ok (LlamaRs.typeSize .f16)
    ∧ LlamaRs.typeSize .f16 = 2
    ∧ (e % 64 = 0 → LlamaRs.bpeResult n p 2 e = .ok (LlamaRs.typeSize .q4_0))
    ∧ (e % 64 = 0 → LlamaRs.bpeResult n p 3 e = .ok (LlamaRs.typeSize .q4_1))
    ∧ (e % 64 ≠ 0 → LlamaRs.bpeResult n p 2 e = .error .panicked
        ∧ LlamaRs.bpeResult n p 3 e = .error .panicked)
    ∧ (∀ c, 4 ≤ c → LlamaRs.bpeResult n p c e = .error (.invalidFtype n c p))
    ∧ (∀ (m : LlamaRs.Model) (partId nParts : Nat) (path : String)
        (r : LlamaRs.TensorRecord) (s : LlamaRs.ByteStream)
        (tensor : LlamaRs.TensorDesc),
        m.lookup r.name = some tensor →
        LlamaRs.checkNelements tensor r nParts path = .ok () →
        LlamaRs.checkExtents tensor r nParts (LlamaRs.splitType r.name) path = .ok () →
        4 ≤ r.ftype →
        LlamaRs.processRecord m partId nParts path r s =
          .error (.invalidFtype r.name r.ftype path)) := by
  refine ⟨rfl, rfl, rfl, rfl, fun h => ?_, fun h => ?_, fun h => ⟨?_, ?_⟩,
    fun c hc => ?_, fun m partId nParts path r s tensor hlook hn hx hf => ?_⟩
  · simp [LlamaRs.bpeResult, h]
  · simp [LlamaRs.bpeResult, h]
  · simp [LlamaRs.bpeResult, h]
  · simp [LlamaRs.bpeResult, h]
  · obtain ⟨d, rfl⟩ : ∃ d, c = d + 4 := ⟨c - 4, by omega⟩
    rfl
  · have hb : LlamaRs.bpeResult r.name path r.ftype r.ne0 =
        .error (.invalidFtype r.name r.ftype path) := by
      obtain ⟨d, hd⟩ : ∃ d, r.ftype = d + 4 := ⟨r.ftype - 4, by omega⟩
      rw [hd]
      rfl
    exact (processRecord_stage_err m partId nParts path r s tensor _ hlook).2.2 hn hx hb

/-- C4 witness: the mapping theorem applied at concrete inputs — code 2
with a 64-divisible extent yields the Q4_0 size, and code 4 is rejected
with `InvalidFtype` carrying the code. -/
theorem ftype_mapping_witness :
    LlamaRs.bpeResult "w" "p" 2 64 = .ok (LlamaRs.typeSize .q4_0)
    ∧ LlamaRs.bpeResult "w" "p" 4 64 = .error (.invalidFtype "w" 4 "p") :=
  ⟨(ftype_mapping "w" "p" 64).2.2.2.2.1 (by decide),
   (ftype_mapping "w" "p" 64).2.2.2.2.2.2.2.1 4 (by norm_num)⟩

/-- C5: for every record, a failing element-count validation — a rank-1
record whose declared count differs from the destination's total, or a
rank-2 record whose declared count differs from the destination's total
divided by the part count — aborts the record with `TensorWrongSize`
carrying the tensor name and the part path, and no bytes of the tensor
are written. -/
theorem nelements_validated (m : LlamaRs.Model) (partId nParts : Nat)
    (path : String) (r : LlamaRs.TensorRecord) (s : LlamaRs.ByteStream)
    (tensor : LlamaRs.TensorDesc)
    (hlook : m.lookup r.name = some tensor) :
    (r.nDims = 1 → tensor.nelements ≠ r.nelements →
      LlamaRs.processRecord m partId nParts path r s =
          .error (.tensorWrongSize r.name path)
        ∧ LlamaRs.writesOf (LlamaRs.processRecord m partId nParts path r s) = [])
    ∧ (r.nDims = 2 → tensor.nelements / nParts ≠ r.nelements →
      LlamaRs.processRecord m partId nParts path r s =
          .error (.tensorWrongSize r.name path)
        ∧ LlamaRs.writesOf (LlamaRs.processRecord m partId nParts path r s) = []) := by
  constructor
  · intro hd hne
    have h := (processRecord_stage_err m partId nParts path r s tensor _ hlook).1
      (checkNelements_err_rank1 tensor r nParts path hd hne)
    exact ⟨h, by rw [h]; rfl⟩
  · intro hd hne
    have hd' : r.nDims ≠ 1 := by omega
    have h := (processRecord_stage_err m partId nParts path r s tensor _ hlook).1
      (checkNelements_err_rank2 tensor r nParts path hd' hne)
    exact ⟨h, by rw [h]; rfl⟩

/-- C5 witness: a concrete rank-1 record declaring 5 elements against a
4-element destination is rejected with `TensorWrongSize`. -/
theorem nelements_validated_witness :
    LlamaRs.processRecord ⟨[("w", ⟨4, 1, .f32⟩)]⟩ 0 1 "part0"
        { nDims := 1, lengthField := 1, ftype := 0, ne0 := 5, ne1 := 1,
          nelements := 5, name := "w" } [] =
      .error (.tensorWrongSize "w" "part0") :=
  ((nelements_validated ⟨[("w", ⟨4, 1, .f32⟩)]⟩ 0 1 "part0"
    { nDims := 1, lengthField := 1, ftype := 0, ne0 := 5, ne1 := 1,
      nelements := 5, name := "w" } [] ⟨4, 1, .f32⟩ rfl).1 rfl (by decide)).1

theorem readDims_one_snd (s : LlamaRs.ByteStream) (a b : Int) (c : Nat)
    (s' : LlamaRs.ByteStream) (h : LlamaRs.readDims 1 s = .ok (a, b, c, s')) :
    b = 1 := by
  unfold LlamaRs.readDims at h
  cases h1 : LlamaRs.readI32 s with
  | error e => simp [h1] at h
  | ok p =>
    obtain ⟨v0, s1⟩ := p
    cases h2 : LlamaRs.usizeTryFromInt v0 with
    | error e => simp [h1, h2] at h
    | ok n0 =>
      simp [h1, h2] at h
      exact h.2.1.symm

theorem parseRecordHeader_rank1_ne1 (s : LlamaRs.ByteStream) (r : LlamaRs.TensorRecord)
    (s' : LlamaRs.ByteStream) (hp : LlamaRs.parseRecordHeader s = .ok (r, s'))
    (hd : r.nDims = 1) : r.ne1 = 1 := by
  unfold LlamaRs.parseRecordHeader at hp
  cases h1 : LlamaRs.readI32 s with
  | error e => simp [h1] at hp
  | ok p1 =>
    obtain ⟨nDimsI, s1⟩ := p1
    cases h2 : LlamaRs.usizeTryFromInt nDimsI with
    | error e => simp [h1, h2] at hp
    | ok nDims =>
      cases h3 : LlamaRs.readI32 s1 with
      | error e => simp [h1, h2, h3] at hp
      | ok p2 =>
        obtain ⟨length, s2⟩ := p2
        cases h4 : LlamaRs.readU32 s2 with
        | error e => simp [h1, h2, h3, h4] at hp
        | ok p3 =>
          obtain ⟨ftype, s3⟩ := p3
          cases h5 : LlamaRs.readDims nDims s3 with
          | error e => simp [h1, h2, h3, h4, h5] at hp
          | ok p4 =>
            obtain ⟨ne0, ne1, nelements, s4⟩ := p4
            cases h6 : LlamaRs.readString (LlamaRs.intAsUsize length) s4 with
            | error e => simp [h1, h2, h3, h4, h5, h6] at hp
            | ok p5 =>
              obtain ⟨name, s5⟩ := p5
              simp [h1, h2, h3, h4, h5, h6] at hp
              obtain ⟨hr, _⟩ := hp
              subst hr
              have hnd : nDims = 1 := hd
              subst hnd
              exact readDims_one_snd s3 ne0 ne1 nelements s4 h5

/-- C10: a rank-1 record leaves `ne[1]` at its default of 1, and the
loader compares both declared extents against the destination, so every
rank-1 record whose destination has a second extent greater than 1 is
rejected with `TensorWrongSize` even when the declared element count
matches the destination's total element count. -/
theorem rank1_rejects_wide_destination :
    (∀ (s : LlamaRs.ByteStream) (r : LlamaRs.TensorRecord) (s' : LlamaRs.ByteStream),
      LlamaRs.parseRecordHeader s = .ok (r, s') → r.nDims = 1 → r.ne1 = 1)
    ∧ (∀ (m : LlamaRs.Model) (partId nParts : Nat) (path : String)
        (r : LlamaRs.TensorRecord) (s : LlamaRs.ByteStream)
        (tensor : LlamaRs.TensorDesc),
        m.lookup r.name = some tensor → r.nDims = 1 → r.ne1 = 1 →
        1 < tensor.ne1 → tensor.nelements = r.nelements →
        LlamaRs.processRecord m partId nParts path r s =
          .error (.tensorWrongSize r.name path)) := by
  constructor
  · exact parseRecordHeader_rank1_ne1
  · intro m partId nParts path r s tensor hlook hd hne1 hwide hnel
    have hn : LlamaRs.checkNelements tensor r nParts path = .ok () :=
      checkNelements_ok tensor r nParts path (fun _ => hnel) (fun hd' => absurd hd hd')
    have hx : LlamaRs.checkExtents tensor r nParts (LlamaRs.splitType r.name) path =
        .error (.tensorWrongSize r.name path) :=
      checkExtents_err_rank1 tensor r nParts _ path hd (Or.inr (by omega))
    exact (processRecord_stage_err m partId nParts path r s tensor _ hlook).2.1 hn hx

/-- C10 witness: a concrete rank-1 record with declared `ne = [8]`
against a destination of extents `[4, 2]` — the total element counts
agree (8 = 8) but the record is rejected because the defaulted
`ne[1] = 1` differs from the destination's second extent 2. -/
theorem rank1_rejects_wide_destination_witness :
    LlamaRs.parseRecordHeader
        ([1, 0, 0, 0] ++ [1, 0, 0, 0] ++ [0, 0, 0, 0] ++ [8, 0, 0, 0] ++ [97]) =
      .ok ({ nDims := 1, lengthField := 1, ftype := 0, ne0 := 8, ne1 := 1,
             nelements := 8, name := "a" }, [])
    ∧ ({ nDims := 1, lengthField := 1, ftype := 0, ne0 := 8, ne1 := 1,
         nelements := 8, name := "a" } : LlamaRs.TensorRecord).ne1 = 1
    ∧ LlamaRs.processRecord ⟨[("a", ⟨4, 2, .f32⟩)]⟩ 0 1 "part0"
        { nDims := 1, lengthField := 1, ftype := 0, ne0 := 8, ne1 := 1,
          nelements := 8, name := "a" } [] =
      .error (.tensorWrongSize "a" "part0") :=
  ⟨by decide,
   rank1_rejects_wide_destination.1
     ([1, 0, 0, 0] ++ [1, 0, 0, 0] ++ [0, 0, 0, 0] ++ [8, 0, 0, 0] ++ [97])
     { nDims := 1, lengthField := 1, ftype := 0, ne0 := 8, ne1 := 1,
       nelements := 8, name := "a" } [] (by decide) rfl,
   rank1_rejects_wide_destination.2 ⟨[("a", ⟨4, 2, .f32⟩)]⟩ 0 1 "part0"
     { nDims := 1, lengthField := 1, ftype := 0, ne0 := 8, ne1 := 1,
       nelements := 8, name := "a" } [] ⟨4, 2, .f32⟩ rfl rfl rfl (by decide) (by decide)⟩

theorem interval_cover_iff (p n rs b : Nat) :
    (∃ k, k < n ∧ (k + p * n) * rs ≤ b ∧ b < (k + p * n) * rs + rs) ↔
      (p * n * rs ≤ b ∧ b < (p + 1) * n * rs) := by
  constructor
  · rintro ⟨k, hk, h1, h2⟩
    have e1 : (k + p * n) * rs = k * rs + p * n * rs := by ring
    have e2 : (p + 1) * n * rs = p * n * rs + n * rs := by ring
    have e3 : k * rs + rs ≤ n * rs := by
      have h4 : (k + 1) * rs ≤ n * rs := Nat.mul_le_mul_right rs (by omega)
      calc k * rs + rs = (k + 1) * rs := by ring
        _ ≤ n * rs := h4
    rw [e1] at h1 h2
    rw [e2]
    omega
  · rintro ⟨hb1, hb2⟩
    have hrs : 0 < rs := by
      rcases Nat.eq_zero_or_pos rs with h | h
      · subst h
        rw [Nat.mul_zero] at hb2
        omega
      · exact h
    set c := b - p * n * rs with hc
    have e2 : (p + 1) * n * rs = p * n * rs + n * rs := by ring
    have hcb : c < n * rs := by
      rw [e2] at hb2
      omega
    have e1 : (c / rs + p * n) * rs = c / rs * rs + p * n * rs := by ring
    refine ⟨c / rs, (Nat.div_lt_iff_lt_mul hrs).mpr hcb, ?_, ?_⟩
    · have h3 : c / rs * rs ≤ c := Nat.div_mul_le_self c rs
      rw [e1]
      omega
    · have h5 := Nat.div_add_mod c rs
      have h6 : c % rs < rs := Nat.mod_lt _ hrs
      have h7 : rs * (c / rs) = c / rs * rs := Nat.mul_comm _ _
      rw [h7] at h5
      rw [e1]
      omega

theorem covers_rows_iff (name : String) (s : LlamaRs.ByteStream) (p n rs : Nat)
    (hlen : n * rs ≤ s.length) (b : Nat) :
    LlamaRs.covers ((List.range n).map (fun k =>
        ⟨name, (k + p * n) * rs, (s.drop (k * rs)).take rs⟩)) b ↔
      (p * n * rs ≤ b ∧ b < (p + 1) * n * rs) := by
  rw [← interval_cover_iff p n rs b]
  unfold LlamaRs.covers
  simp only [List.mem_map, List.mem_range]
  constructor
  · rintro ⟨w, ⟨k, hk, rfl⟩, h1, h2⟩
    refine ⟨k, hk, h1, ?_⟩
    have hdl : ((s.drop (k * rs)).take rs).length ≤ rs := by
      simp [List.length_take]
    simp only at h1 h2 ⊢
    omega
  · rintro ⟨k, hk, h1, h2⟩
    refine ⟨⟨name, (k + p * n) * rs, (s.drop (k * rs)).take rs⟩, ⟨k, hk, rfl⟩, h1, ?_⟩
    have hdl : ((s.drop (k * rs)).take rs).length = rs := by
      rw [List.length_take, List.length_drop]
      have h4 : (k + 1) * rs ≤ n * rs := Nat.mul_le_mul_right rs (by omega)
      have e : (k + 1) * rs = k * rs + rs := by ring
      omega
    simp only
    omega

theorem intAsUsize_of_nonneg (v : Int) (h1 : 0 ≤ v) (h2 : v < 2 ^ 64) :
    LlamaRs.intAsUsize v = v.toNat := by
  unfold LlamaRs.intAsUsize
  rw [Int.emod_eq_of_lt h1 h2]

theorem copyPhase_rows_eq (tensor : LlamaRs.TensorDesc) (r : LlamaRs.TensorRecord)
    (partId nParts : Nat) (path : String) (bpe st : Nat) (s : LlamaRs.ByteStream)
    (rowSize : Nat)
    (hd : r.nDims ≠ 1) (hp1 : nParts ≠ 1) (hst : st ≠ 0)
    (hsize : r.nelements * bpe / LlamaRs.blckSize tensor.ty = tensor.nbytes / nParts)
    (hne0 : 0 ≤ tensor.ne0)
    (hrs : rowSize = tensor.ne0.toNat / LlamaRs.blckSize tensor.ty *
      LlamaRs.typeSize tensor.ty)
    (hlen : r.ne1.toNat * rowSize ≤ s.length) :
    LlamaRs.copyPhase tensor r partId nParts path bpe st s =
      .ok (s.drop (r.ne1.toNat * rowSize),
        (List.range r.ne1.toNat).map (fun k =>
          ⟨r.name, (k + partId * LlamaRs.intAsUsize r.ne1) * rowSize,
            (s.drop (k * rowSize)).take rowSize⟩),
        tensor.nbytes / nParts) := by
  subst hrs
  unfold LlamaRs.copyPhase
  rw [if_neg (by simp [hd, hp1]), if_neg (by simp [hsize]),
    show LlamaRs.usizeTryFromInt tensor.ne0 = .ok tensor.ne0.toNat by
      simp [LlamaRs.usizeTryFromInt, hne0]]
  simp only [if_neg hst]
  rw [copyRows_eq r.name _ _ r.ne1.toNat 0 s hlen]
  simp [Nat.zero_add]

theorem copyPhase_cols_eq (tensor : LlamaRs.TensorDesc) (r : LlamaRs.TensorRecord)
    (partId nParts : Nat) (path : String) (bpe : Nat) (s : LlamaRs.ByteStream)
    (rowSize : Nat)
    (hd : r.nDims ≠ 1) (hp1 : nParts ≠ 1)
    (hsize : r.nelements * bpe / LlamaRs.blckSize tensor.ty = tensor.nbytes / nParts)
    (hne0 : 0 ≤ tensor.ne0)
    (hrs : rowSize = tensor.ne0.toNat / LlamaRs.blckSize tensor.ty *
      LlamaRs.typeSize tensor.ty)
    (hlen : r.ne1.toNat * (rowSize / nParts) ≤ s.length) :
    LlamaRs.copyPhase tensor r partId nParts path bpe 0 s =
      .ok (s.drop (r.ne1.toNat * (rowSize / nParts)),
        (List.range r.ne1.toNat).map (fun k =>
          ⟨r.name, k * rowSize + partId * LlamaRs.intAsUsize r.ne0 /
              LlamaRs.blckSize tensor.ty * LlamaRs.typeSize tensor.ty,
            (s.drop (k * (rowSize / nParts))).take (rowSize / nParts)⟩),
        tensor.nbytes / nParts) := by
  subst hrs
  unfold LlamaRs.copyPhase
  rw [if_neg (by simp [hd, hp1]), if_neg (by simp [hsize]),
    show LlamaRs.usizeTryFromInt tensor.ne0 = .ok tensor.ne0.toNat by
      simp [LlamaRs.usizeTryFromInt, hne0]]
  simp only [if_pos rfl, LlamaRs.TensorDesc.nb1, ne_eq, not_true_eq_false, ite_false,
    if_neg (show ¬(tensor.ne0.toNat / LlamaRs.blckSize tensor.ty *
      LlamaRs.typeSize tensor.ty ≠ tensor.ne0.toNat / LlamaRs.blckSize tensor.ty *
      LlamaRs.typeSize tensor.ty) from by simp)]
  rw [copyRows_eq r.name _ _ r.ne1.toNat 0 s hlen]
  simp [Nat.zero_add]

/-- C1 (amended): for a multi-part load of a rank-2, split-by-rows
record passing all validations, part `part_id` writes, for each row
`i1` in `[0, ne[1])`, a full `row_size`-byte row (with
`row_size = (destination_extent0 / block_size) * element_size`) at
destination byte offset `(i1 + part_id*ne[1]) * row_size`; the bytes a
part covers are exactly the contiguous range
`[part_id*ne[1]*row_size, (part_id+1)*ne[1]*row_size)`, so the parts
tile rows `[0, part_count*ne[1])` of the destination contiguously with
no overlap and no gap between parts — which is all destination rows
exactly when the destination's second extent equals
`part_count * ne[1]` (the loader's floor-division validation does not
force this). -/
theorem row_split_writes (m : LlamaRs.Model) (partId nParts : Nat) (path : String)
    (r : LlamaRs.TensorRecord) (s : LlamaRs.ByteStream)
    (tensor : LlamaRs.TensorDesc) (bpe rowSize : Nat)
    (hlook : m.lookup r.name = some tensor)
    (hst : LlamaRs.splitType r.name = 1)
    (hd : r.nDims = 2) (hp1 : nParts ≠ 1)
    (hn : LlamaRs.checkNelements tensor r nParts path = .ok ())
    (hx : LlamaRs.checkExtents tensor r nParts (LlamaRs.splitType r.name) path = .ok ())
    (hb : LlamaRs.bpeResult r.name path r.ftype r.ne0 = .ok bpe)
    (hsize : r.nelements * bpe / LlamaRs.blckSize tensor.ty = tensor.nbytes / nParts)
    (hne0 : 0 ≤ tensor.ne0) (hne1a : 0 ≤ r.ne1) (hne1b : r.ne1 < 2 ^ 64)
    (hrs : rowSize = tensor.ne0.toNat / LlamaRs.blckSize tensor.ty *
      LlamaRs.typeSize tensor.ty)
    (hlen : r.ne1.toNat * rowSize ≤ s.length) :
    LlamaRs.processRecord m partId nParts path r s =
      .ok (s.drop (r.ne1.toNat * rowSize),
        (List.range r.ne1.toNat).map (fun k =>
          ⟨r.name, (k + partId * r.ne1.toNat) * rowSize,
            (s.drop (k * rowSize)).take rowSize⟩),
        tensor.nbytes / nParts)
    ∧ (∀ b, LlamaRs.covers ((List.range r.ne1.toNat).map (fun k =>
          ⟨r.name, (k + partId * r.ne1.toNat) * rowSize,
            (s.drop (k * rowSize)).take rowSize⟩)) b ↔
        (partId * r.ne1.toNat * rowSize ≤ b ∧
          b < (partId + 1) * r.ne1.toNat * rowSize)) := by
  have hiu : LlamaRs.intAsUsize r.ne1 = r.ne1.toNat :=
    intAsUsize_of_nonneg r.ne1 hne1a hne1b
  have hd' : r.nDims ≠ 1 := by omega
  constructor
  · rw [processRecord_copyPhase m partId nParts path r s tensor bpe hlook hn hx hb, hst,
      copyPhase_rows_eq tensor r partId nParts path bpe 1 s rowSize hd' hp1
        (by omega) hsize hne0 hrs hlen, hiu]
  · intro b
    exact covers_rows_iff r.name s partId r.ne1.toNat rowSize hlen b

/-- C1 witness: the amended theorem applied at a concrete 2-part
split-by-rows load (destination extents `[2, 4]`, f32): part 1 writes
full 8-byte rows at offsets 16 and 24. -/
theorem row_split_writes_witness :
    LlamaRs.processRecord ⟨[("output.weight", ⟨2, 4, .f32⟩)]⟩ 1 2 "p"
        { nDims := 2, lengthField := 13, ftype := 0, ne0 := 2, ne1 := 2,
          nelements := 4, name := "output.weight" } (List.replicate 16 9) =
      .ok ((List.replicate 16 9).drop 16,
        (List.range 2).map (fun k =>
          ⟨"output.weight", (k + 2) * 8, ((List.replicate 16 9).drop (k * 8)).take 8⟩),
        16) :=
  (row_split_writes ⟨[("output.weight", ⟨2, 4, .f32⟩)]⟩ 1 2 "p"
    { nDims := 2, lengthField := 13, ftype := 0, ne0 := 2, ne1 := 2,
      nelements := 4, name := "output.weight" } (List.replicate 16 9)
    ⟨2, 4, .f32⟩ 4 8 rfl (by decide) rfl (by decide) rfl rfl rfl (by decide)
    (by decide) (by decide) (by decide) (by decide) (by decide)).1

/-- C1 counterexample: a 3-part split-by-rows load that every
validation accepts (destination extents `[1, 7]`, f16, declared
`ne = [1, 2]`) but whose three parts together write only destination
bytes `[0, 12)` while the destination has `nbytes = 14` — destination
row 6 (bytes `[12, 14)`) is written by no part, so the parts do not
partition the destination's rows without a gap. -/
theorem row_split_gap_counterexample :
    LlamaRs.processRecord ⟨[("output.weight", ⟨1, 7, .f16⟩)]⟩ 0 3 "p"
        { nDims := 2, lengthField := 13, ftype := 1, ne0 := 1, ne1 := 2,
          nelements := 2, name := "output.weight" } [1, 2, 3, 4] =
      .ok ([], [⟨"output.weight", 0, [1, 2]⟩, ⟨"output.weight", 2, [3, 4]⟩], 4)
    ∧ LlamaRs.processRecord ⟨[("output.weight", ⟨1, 7, .f16⟩)]⟩ 1 3 "p"
        { nDims := 2, lengthField := 13, ftype := 1, ne0 := 1, ne1 := 2,
          nelements := 2, name := "output.weight" } [5, 6, 7, 8] =
      .ok ([], [⟨"output.weight", 4, [5, 6]⟩, ⟨"output.weight", 6, [7, 8]⟩], 4)
    ∧ LlamaRs.processRecord ⟨[("output.weight", ⟨1, 7, .f16⟩)]⟩ 2 3 "p"
        { nDims := 2, lengthField := 13, ftype := 1, ne0 := 1, ne1 := 2,
          nelements := 2, name := "output.weight" } [9, 10, 11, 12] =
      .ok ([], [⟨"output.weight", 8, [9, 10]⟩, ⟨"output.weight", 10, [11, 12]⟩], 4)
    ∧ (⟨1, 7, .f16⟩ : LlamaRs.TensorDesc).nbytes = 14
    ∧ ([⟨"output.weight", 0, [1, 2]⟩, ⟨"output.weight", 2, [3, 4]⟩,
        ⟨"output.weight", 4, [5, 6]⟩, ⟨"output.weight", 6, [7, 8]⟩,
        ⟨"output.weight", 8, [9, 10]⟩, ⟨"output.weight", 10, [11, 12]⟩] :
          List LlamaRs.TensorWrite).all
        (fun w => decide (w.offset + w.data.length ≤ 12)) = true := by
  refine ⟨by decide, by decide, by decide, by decide, by decide⟩

/-- C2: for a multi-part load of a rank-2, split-by-columns record
passing all validations, part `part_id` writes, for each row `i1` in
`[0, ne[1])`, a contiguous `row_size/part_count`-byte slice at
destination byte offset
`i1*row_size + (part_id*ne[0]/block_size)*element_size`, with
`row_size = (destination_extent0 / block_size) * element_size`; and in
the two-part case (with the destination's block count twice the
declared one, as the validations ensure for matching types) the slice
length is exactly `row_size/2` and part 1's in-row offset is exactly
`row_size/2`, so part 0 fills the left half and part 1 the right half
of every row, both with row stride `row_size`. -/
theorem col_split_writes (m : LlamaRs.Model) (partId nParts : Nat) (path : String)
    (r : LlamaRs.TensorRecord) (s : LlamaRs.ByteStream)
    (tensor : LlamaRs.TensorDesc) (bpe rowSize : Nat)
    (hlook : m.lookup r.name = some tensor)
    (hst : LlamaRs.splitType r.name = 0)
    (hd : r.nDims = 2) (hp1 : nParts ≠ 1)
    (hn : LlamaRs.checkNelements tensor r nParts path = .ok ())
    (hx : LlamaRs.checkExtents tensor r nParts (LlamaRs.splitType r.name) path = .ok ())
    (hb : LlamaRs.bpeResult r.name path r.ftype r.ne0 = .ok bpe)
    (hsize : r.nelements * bpe / LlamaRs.blckSize tensor.ty = tensor.nbytes / nParts)
    (hne0 : 0 ≤ tensor.ne0) (hne0a : 0 ≤ r.ne0) (hne0b : r.ne0 < 2 ^ 64)
    (hrs : rowSize = tensor.ne0.toNat / LlamaRs.blckSize tensor.ty *
      LlamaRs.typeSize tensor.ty)
    (hlen : r.ne1.toNat * (rowSize / nParts) ≤ s.length) :
    LlamaRs.processRecord m partId nParts path r s =
      .ok (s.drop (r.ne1.toNat * (rowSize / nParts)),
        (List.range r.ne1.toNat).map (fun k =>
          ⟨r.name, k * rowSize + partId * r.ne0.toNat / LlamaRs.blckSize tensor.ty *
              LlamaRs.typeSize tensor.ty,
            (s.drop (k * (rowSize / nParts))).take (rowSize / nParts)⟩),
        tensor.nbytes / nParts)
    ∧ (tensor.ne0.toNat / LlamaRs.blckSize tensor.ty =
          2 * (r.ne0.toNat / LlamaRs.blckSize tensor.ty) →
        nParts = 2 →
        rowSize / nParts = rowSize / 2
        ∧ rowSize = 2 * (rowSize / 2)
        ∧ 1 * r.ne0.toNat / LlamaRs.blckSize tensor.ty * LlamaRs.typeSize tensor.ty =
            rowSize / 2) := by
  have hiu : LlamaRs.intAsUsize r.ne0 = r.ne0.toNat :=
    intAsUsize_of_nonneg r.ne0 hne0a hne0b
  have hd' : r.nDims ≠ 1 := by omega
  constructor
  · rw [processRecord_copyPhase m partId nParts path r s tensor bpe hlook hn hx hb, hst,
      copyPhase_cols_eq tensor r partId nParts path bpe s rowSize hd' hp1
        hsize hne0 hrs hlen, hiu]
  · intro hdouble hnp2
    subst hnp2
    have hx2 : rowSize = 2 * (r.ne0.toNat / LlamaRs.blckSize tensor.ty *
        LlamaRs.typeSize tensor.ty) := by
      rw [hrs, hdouble]
      ring
    refine ⟨rfl, by omega, ?_⟩
    rw [Nat.one_mul]
    omega

/-- C2 witness: the theorem applied at the spec's concrete example — a
2-part split-by-columns load with destination extents `[8, 4]` (f32):
part 1 writes 16-byte slices at in-row offset 16 = `row_size/2` in each
of the four 32-byte rows. -/
theorem col_split_writes_witness :
    LlamaRs.processRecord ⟨[("tok_embeddings.weight", ⟨8, 4, .f32⟩)]⟩ 1 2 "p"
        { nDims := 2, lengthField := 21, ftype := 0, ne0 := 4, ne1 := 4,
          nelements := 16, name := "tok_embeddings.weight" } (List.replicate 64 9) =
      .ok ((List.replicate 64 9).drop 64,
        (List.range 4).map (fun k =>
          ⟨"tok_embeddings.weight", k * 32 + 16,
            ((List.replicate 64 9).drop (k * 16)).take 16⟩),
        64) :=
  (col_split_writes ⟨[("tok_embeddings.weight", ⟨8, 4, .f32⟩)]⟩ 1 2 "p"
    { nDims := 2, lengthField := 21, ftype := 0, ne0 := 4, ne1 := 4,
      nelements := 16, name := "tok_embeddings.weight" } (List.replicate 64 9)
    ⟨8, 4, .f32⟩ 4 32 rfl (by decide) rfl (by decide) rfl rfl rfl (by decide)
    (by decide) (by decide) (by decide) (by decide) (by decide)).1

theorem readI32_append (b s : LlamaRs.ByteStream) (h : b.length = 4) :
    LlamaRs.readI32 (b ++ s) = .ok (LlamaRs.asI32 (LlamaRs.leValue b), s) := by
  unfold LlamaRs.readI32
  rw [readExact_append 4 b s h]

theorem readU32_append (b s : LlamaRs.ByteStream) (h : b.length = 4) :
    LlamaRs.readU32 (b ++ s) = .ok (LlamaRs.leValue b, s) := by
  unfold LlamaRs.readU32
  rw [readExact_append 4 b s h]

theorem leValue_lt_of_length4 (b : LlamaRs.ByteStream) (h : b.length = 4) :
    LlamaRs.leValue b < 2 ^ 32 := by
  rcases b with _ | ⟨b0, b⟩
  · simp at h
  rcases b with _ | ⟨b1, b⟩
  · simp at h
  rcases b with _ | ⟨b2, b⟩
  · simp at h
  rcases b with _ | ⟨b3, b⟩
  · simp at h
  rcases b with _ | ⟨b4, b⟩
  · simp [LlamaRs.leValue]
    omega
  · simp at h

theorem asI32_neg_wrap (v : Nat) (hv : v < 2 ^ 32) (hneg : LlamaRs.asI32 v < 0) :
    2 ^ 63 ≤ LlamaRs.intAsUsize (LlamaRs.asI32 v) := by
  have hge : ¬ v < 2 ^ 31 := by
    intro hlt
    unfold LlamaRs.asI32 at hneg
    rw [if_pos hlt] at hneg
    omega
  have h1 : LlamaRs.asI32 v = (v : Int) - 2 ^ 32 := by
    unfold LlamaRs.asI32
    rw [if_neg hge]
  rw [h1]
  unfold LlamaRs.intAsUsize
  omega

/-- C8 (amended): a negative `n_dims` or a negative extent `ne[i]` read
from a part's record stream is caught by `usize::try_from` and aborts
the record with the integer-conversion error; a negative `name_len`,
however, is converted with the unchecked wrapping cast `as usize`, so
it silently wraps to a value of at least `2^64 - 2^31` — above
`isize::MAX` — and the name buffer allocation `vec![0; len]` then
panics with a capacity overflow (the modelled `panicked` outcome)
before any read is attempted, rather than producing the
integer-conversion error.  In no case is a partially-applied record
produced. -/
theorem negative_header_field_errors (d l f n0 n1 rest : LlamaRs.ByteStream)
    (hd : d.length = 4) (hl : l.length = 4) (hf : f.length = 4)
    (hn0 : n0.length = 4) (hn1 : n1.length = 4) :
    (LlamaRs.asI32 (LlamaRs.leValue d) < 0 →
      LlamaRs.parseRecordHeader (d ++ rest) = .error .tryFromIntError)
    ∧ (LlamaRs.asI32 (LlamaRs.leValue d) = 1 →
       LlamaRs.asI32 (LlamaRs.leValue n0) < 0 →
      LlamaRs.parseRecordHeader (d ++ (l ++ (f ++ (n0 ++ rest)))) = .error .tryFromIntError)
    ∧ (LlamaRs.asI32 (LlamaRs.leValue d) = 2 →
       LlamaRs.asI32 (LlamaRs.leValue n0) < 0 →
      LlamaRs.parseRecordHeader (d ++ (l ++ (f ++ (n0 ++ rest)))) = .error .tryFromIntError)
    ∧ (LlamaRs.asI32 (LlamaRs.leValue d) = 2 →
       0 ≤ LlamaRs.asI32 (LlamaRs.leValue n0) →
       LlamaRs.asI32 (LlamaRs.leValue n1) < 0 →
      LlamaRs.parseRecordHeader (d ++ (l ++ (f ++ (n0 ++ (n1 ++ rest))))) =
        .error .tryFromIntError)
    ∧ (LlamaRs.asI32 (LlamaRs.leValue d) = 1 →
       0 ≤ LlamaRs.asI32 (LlamaRs.leValue n0) →
       LlamaRs.asI32 (LlamaRs.leValue l) < 0 →
      LlamaRs.parseRecordHeader (d ++ (l ++ (f ++ (n0 ++ rest)))) =
        .error .panicked) := by
  refine ⟨fun hneg => ?_, fun hd1 hneg => ?_, fun hd2 hneg => ?_,
    fun hd2 hpos hneg => ?_, fun hd1 hpos hlneg => ?_⟩
  · unfold LlamaRs.parseRecordHeader
    rw [readI32_append d rest hd]
    have hu : LlamaRs.usizeTryFromInt (LlamaRs.asI32 (LlamaRs.leValue d)) =
        .error .tryFromIntError := by
      unfold LlamaRs.usizeTryFromInt
      rw [if_neg (by omega)]
    simp [hu]
  · unfold LlamaRs.parseRecordHeader
    rw [readI32_append d _ hd]
    have hu : LlamaRs.usizeTryFromInt (LlamaRs.asI32 (LlamaRs.leValue d)) = .ok 1 := by
      rw [hd1]
      rfl
    have hu0 : LlamaRs.usizeTryFromInt (LlamaRs.asI32 (LlamaRs.leValue n0)) =
        .error .tryFromIntError := by
      unfold LlamaRs.usizeTryFromInt
      rw [if_neg (by omega)]
    have hrd : LlamaRs.readDims 1 (n0 ++ rest) = .error .tryFromIntError := by
      simp [LlamaRs.readDims, readI32_append n0 rest hn0, hu0]
    simp [hu, readI32_append l _ hl, readU32_append f _ hf, hrd]
  · unfold LlamaRs.parseRecordHeader
    rw [readI32_append d _ hd]
    have hu : LlamaRs.usizeTryFromInt (LlamaRs.asI32 (LlamaRs.leValue d)) = .ok 2 := by
      rw [hd2]
      rfl
    have hu0 : LlamaRs.usizeTryFromInt (LlamaRs.asI32 (LlamaRs.leValue n0)) =
        .error .tryFromIntError := by
      unfold LlamaRs.usizeTryFromInt
      rw [if_neg (by omega)]
    have hrd : LlamaRs.readDims 2 (n0 ++ rest) = .error .tryFromIntError := by
      simp [LlamaRs.readDims, readI32_append n0 rest hn0, hu0]
    simp [hu, readI32_append l _ hl, readU32_append f _ hf, hrd]
  · unfold LlamaRs.parseRecordHeader
    rw [readI32_append d _ hd]
    have hu : LlamaRs.usizeTryFromInt (LlamaRs.asI32 (LlamaRs.leValue d)) = .ok 2 := by
      rw [hd2]
      rfl
    have hu0 : LlamaRs.usizeTryFromInt (LlamaRs.asI32 (LlamaRs.leValue n0)) =
        .ok (LlamaRs.asI32 (LlamaRs.leValue n0)).toNat := by
      unfold LlamaRs.usizeTryFromInt
      rw [if_pos hpos]
    have hu1 : LlamaRs.usizeTryFromInt (LlamaRs.asI32 (LlamaRs.leValue n1)) =
        .error .tryFromIntError := by
      unfold LlamaRs.usizeTryFromInt
      rw [if_neg (by omega)]
    have hrd : LlamaRs.readDims 2 (n0 ++ (n1 ++ rest)) = .error .tryFromIntError := by
      simp [LlamaRs.readDims, readI32_append n0 _ hn0, hu0,
        readI32_append n1 rest hn1, hu1]
    simp [hu, readI32_append l _ hl, readU32_append f _ hf, hrd]
  · unfold LlamaRs.parseRecordHeader
    rw [readI32_append d _ hd]
    have hu : LlamaRs.usizeTryFromInt (LlamaRs.asI32 (LlamaRs.leValue d)) = .ok 1 := by
      rw [hd1]
      rfl
    have hu0 : LlamaRs.usizeTryFromInt (LlamaRs.asI32 (LlamaRs.leValue n0)) =
        .ok (LlamaRs.asI32 (LlamaRs.leValue n0)).toNat := by
      unfold LlamaRs.usizeTryFromInt
      rw [if_pos hpos]
    have hrd : LlamaRs.readDims 1 (n0 ++ rest) =
        .ok (LlamaRs.asI32 (LlamaRs.leValue n0), 1,
          1 * (LlamaRs.asI32 (LlamaRs.leValue n0)).toNat, rest) := by
      simp [LlamaRs.readDims, readI32_append n0 rest hn0, hu0]
    have hbig : 2 ^ 63 ≤ LlamaRs.intAsUsize (LlamaRs.asI32 (LlamaRs.leValue l)) :=
      asI32_neg_wrap (LlamaRs.leValue l) (leValue_lt_of_length4 l hl) hlneg
    have hstr : LlamaRs.readString
        (LlamaRs.intAsUsize (LlamaRs.asI32 (LlamaRs.leValue l))) rest =
        .error .panicked := by
      unfold LlamaRs.readString
      rw [if_pos hbig]
    simp [hu, readI32_append l _ hl, readU32_append f _ hf, hrd, hstr]

/-- C8 counterexample: a record whose `name_len` field is the negative
`i32` value -1 does not abort with the integer-conversion error — the
unchecked `as usize` cast wraps it to `2^64 - 1`, above `isize::MAX`,
and the name buffer allocation `vec![0; len]` panics with a capacity
overflow (the modelled `panicked` outcome) before any read. -/
theorem negative_name_len_counterexample :
    LlamaRs.parseRecordHeader
        ([1, 0, 0, 0] ++ [255, 255, 255, 255] ++ [0, 0, 0, 0] ++ [64, 0, 0, 0]) =
      .error .panicked
    ∧ (LlamaRs.LoadErr.panicked ≠ .tryFromIntError) := by
  refine ⟨by decide, by decide⟩

/-- C8 witness: the amended theorem applied at concrete byte groups — a
record whose `n_dims` field is -1 aborts with the integer-conversion
error. -/
theorem negative_header_field_errors_witness :
    LlamaRs.parseRecordHeader ([255, 255, 255, 255] ++ []) =
      .error .tryFromIntError :=
  (negative_header_field_errors [255, 255, 255, 255] [0, 0, 0, 0] [0, 0, 0, 0]
    [0, 0, 0, 0] [0, 0, 0, 0] [] (by decide) (by decide) (by decide) (by decide)
    (by decide)).1 (by decide)

theorem loadPartLoop_events (m : LlamaRs.Model) (partId nParts : Nat) (path : String) :
    ∀ (fuel : Nat) (s : LlamaRs.ByteStream) (tot nt : Nat)
      (ws : List LlamaRs.TensorWrite) (evs : List LlamaRs.LoadProgress) (tot' nt' : Nat),
      LlamaRs.loadPartLoop m partId nParts path fuel s tot nt = .ok (ws, evs, tot', nt') →
      nt ≤ nt' ∧
        evs = ((List.range (nt' - nt)).map
            (fun k => LlamaRs.LoadProgress.partTensorLoaded path (nt + k + 1)
              m.tensors.length))
          ++ [LlamaRs.LoadProgress.partLoaded path tot' nt'] := by
  intro fuel
  induction fuel with
  | zero =>
    intro s tot nt ws evs tot' nt' h
    unfold LlamaRs.loadPartLoop at h
    by_cases hs : s.isEmpty
    · rw [if_pos hs] at h
      simp only [Except.ok.injEq, Prod.mk.injEq] at h
      obtain ⟨h1, h2, h3, h4⟩ := h
      subst h3 h4
      subst h2
      simp
    · rw [if_neg hs] at h
      simp at h
  | succ fuel ih =>
    intro s tot nt ws evs tot' nt' h
    unfold LlamaRs.loadPartLoop at h
    by_cases hs : s.isEmpty
    · rw [if_pos hs] at h
      simp only [Except.ok.injEq, Prod.mk.injEq] at h
      obtain ⟨h1, h2, h3, h4⟩ := h
      subst h3 h4
      subst h2
      simp
    · rw [if_neg hs] at h
      cases hp : LlamaRs.parseRecordHeader s with
      | error e => simp [hp] at h
      | ok p =>
        obtain ⟨r, s'⟩ := p
        cases hpr : LlamaRs.processRecord m partId nParts path r s' with
        | error e => simp [hp, hpr] at h
        | ok q =>
          obtain ⟨s'', ws2, sz⟩ := q
          cases hloop : LlamaRs.loadPartLoop m partId nParts path fuel s''
              (tot + sz) (nt + 1) with
          | error e => simp [hp, hpr, hloop] at h
          | ok quad =>
            obtain ⟨wsRest, evs2, tot2, nt2⟩ := quad
            simp only [hp, hpr, hloop, Except.ok.injEq, Prod.mk.injEq] at h
            obtain ⟨hws, hevs, htot, hnt⟩ := h
            obtain ⟨hle, hevs2⟩ := ih s'' (tot + sz) (nt + 1) wsRest evs2 tot2 nt2 hloop
            subst htot hnt
            refine ⟨by omega, ?_⟩
            rw [← hevs, hevs2]
            have hn : nt2 - nt = (nt2 - (nt + 1)) + 1 := by omega
            rw [hn, List.range_succ_eq_map]
            simp only [List.map_cons, List.map_map, Nat.add_zero, List.cons_append]
            congr 1
            congr 1
            apply List.map_congr_left
            intro k _
            simp only [Function.comp_apply, Nat.succ_eq_add_one]
            congr 1
            omega

/-- C9 (amended): for every part whose processing succeeds, the
progress events are exactly `PartLoading` (part path, part index, total
part count), then one `PartTensorLoaded` per record carrying the part
path, the 1-based per-part tensor index and the registry's total tensor
count, then one `PartLoaded` carrying the part's accumulated
`total_size` — the full `tensor.nbytes()` for each rank-1/single-part
record (even when the part only seeks and copies nothing) plus
`tensor.nbytes()/n_parts` for each sharded record — and the part's
tensor count. -/
theorem part_event_sequence (m : LlamaRs.Model) (partId nParts : Nat) (path : String)
    (s : LlamaRs.ByteStream) (ws : List LlamaRs.TensorWrite)
    (evs : List LlamaRs.LoadProgress) (tot nt : Nat)
    (h : LlamaRs.loadPart m partId nParts path s = .ok (ws, evs, tot, nt)) :
    evs = LlamaRs.LoadProgress.partLoading path partId nParts ::
      (((List.range nt).map
          (fun k => LlamaRs.LoadProgress.partTensorLoaded path (k + 1) m.tensors.length))
        ++ [LlamaRs.LoadProgress.partLoaded path tot nt]) := by
  unfold LlamaRs.loadPart at h
  cases hl : LlamaRs.loadPartLoop m partId nParts path (s.length + 1) s 0 0 with
  | error e => rw [hl] at h; simp at h
  | ok quad =>
    obtain ⟨ws0, evs0, tot0, nt0⟩ := quad
    rw [hl] at h
    simp only [Except.ok.injEq, Prod.mk.injEq] at h
    obtain ⟨hws, hevs, htot, hnt⟩ := h
    subst htot hnt
    obtain ⟨_, hevs0⟩ :=
      loadPartLoop_events m partId nParts path (s.length + 1) s 0 0 ws0 evs0 tot0 nt0 hl
    rw [← hevs, hevs0]
    simp

/-- C9 witness: the event-sequence theorem applied at a concrete
single-record part load. -/
theorem part_event_sequence_witness :
    ([.partLoading "p1" 0 1, .partTensorLoaded "p1" 1 1, .partLoaded "p1" 16 1] :
        List LlamaRs.LoadProgress) =
      LlamaRs.LoadProgress.partLoading "p1" 0 1 ::
        (((List.range 1).map
            (fun k => LlamaRs.LoadProgress.partTensorLoaded "p1" (k + 1) 1))
          ++ [LlamaRs.LoadProgress.partLoaded "p1" 16 1]) :=
  part_event_sequence ⟨[("bias", ⟨4, 1, .f32⟩)]⟩ 0 1 "p1"
    ([1, 0, 0, 0] ++ [4, 0, 0, 0] ++ [0, 0, 0, 0] ++ [4, 0, 0, 0] ++
      [98, 105, 97, 115] ++ List.replicate 16 7)
    [⟨"bias", 0, List.replicate 16 7⟩]
    [.partLoading "p1" 0 1, .partTensorLoaded "p1" 1 1, .partLoaded "p1" 16 1]
    16 1 (by decide)

/-- C9 counterexample: part 1 of a 2-part load containing one rank-1
tensor copies no bytes at all (it only seeks, and its write list is
empty), yet its `PartLoaded` event carries byte size 16 — the full
`tensor.nbytes()` — so the payload is the accumulated size accounting,
not the bytes actually copied by that part. -/
theorem part_loaded_size_counterexample :
    LlamaRs.loadPart ⟨[("bias", ⟨4, 1, .f32⟩)]⟩ 1 2 "p1"
        ([1, 0, 0, 0] ++ [4, 0, 0, 0] ++ [0, 0, 0, 0] ++ [4, 0, 0, 0] ++
          [98, 105, 97, 115] ++ List.replicate 16 7) =
      .ok ([], [.partLoading "p1" 1 2, .partTensorLoaded "p1" 1 1,
        .partLoaded "p1" 16 1], 16, 1) := by
  decide
